import Mathlib

/-!
# lock.h and example.c: a single-slot producer/consumer handoff

`lock.h` defines four statement macros over the pthread mutex and condition
variable primitives; `example.c` uses two of them in a producer thread and a
consumer thread that exchange five integers through the global `resource`.

The development embeds

* the statements occurring in the two files as a small syntax (`Stmt`),
* the macros of `lock.h` as functions producing statement lists,
* the three thread functions of `example.c` (`producer`, `consumer`, `main`)
  as the statement lists obtained by expanding the macros,
* an interleaving small-step semantics of the pthread primitives on a state
  holding the globals `resource`, `mutex`, `cond` and the three threads,

and proves the properties of the handoff as invariants of the reachable states.

Modelling choices.  `resource` and `i` are C `int`s; every value they take is
in `0..5` (this is proved), so they are modelled by `Nat` without wrap-around.
One step of a thread executes one statement of the macro-expanded code; the
evaluation of a loop condition is a step of its own.  `pthread_cond_wait` is
three steps: the call releases the mutex and suspends the thread, a signal (or,
when allowed, a spurious wakeup) takes the thread off the condition variable,
and the thread returns from the call once it has reacquired the mutex.
-/

namespace LockH

/-! ## Syntax of the statements used by `lock.h` and `example.c` -/

/-- Thread identifiers: the initial thread running `main`, and the two threads
created by it (`prod_tid`, `cons_tid`). -/
inductive Tid
  | main
  | producer
  | consumer
  deriving DecidableEq

/-- Conditions occurring in the sources: `resource != n`, `resource == n`
(the `WAIT` predicates) and `i < n` (the `for` loops). -/
inductive Cond
  | resourceNe (n : Nat)
  | resourceEq (n : Nat)
  | iLt (n : Nat)
  deriving DecidableEq

/-- Right-hand sides of the assignments to `resource`: a constant, or `i + n`. -/
inductive Expr
  | lit (n : Nat)
  | iPlus (n : Nat)
  deriving DecidableEq

/-- The two `printf` format strings, `"Producer: produced %d\n"` and
`"Consumer: consumed %d\n"`. -/
inductive Fmt
  | produced
  | consumed
  deriving DecidableEq

/-- Statements, over a type `μ` of mutex references and a type `κ` of condition
variable references. -/
inductive Stmt (μ κ : Type)
  -- `pthread_mutex_lock(m)`
  | mutexLock (m : μ)
  -- `pthread_mutex_unlock(m)`
  | mutexUnlock (m : μ)
  -- `pthread_cond_wait(c, m)`
  | condWait (c : κ) (m : μ)
  -- `pthread_cond_signal(c)`
  | condSignal (c : κ)
  -- `pthread_cond_broadcast(c)`
  | condBroadcast (c : κ)
  -- `while (p) { body }`
  | while_ (p : Cond) (body : List (Stmt μ κ))
  -- `int i = n`
  | setI (n : Nat)
  -- `i++`
  | incI
  -- `resource = e`
  | assign (e : Expr)
  -- `printf(f, resource)`
  | printf (f : Fmt)
  -- `pthread_create(&t, NULL, fn, NULL)`
  | create (t : Tid) (fn : List (Stmt μ κ))
  -- `pthread_join(t, NULL)`
  | join (t : Tid)
  -- `return v` (`NULL` is `0`)
  | ret (v : Nat)

/-- The kind of a statement: which primitive it is, without its arguments. -/
inductive Kind
  | mutexLock
  | mutexUnlock
  | condWait
  | condSignal
  | condBroadcast
  | loop
  | setI
  | incI
  | assign
  | printf
  | create
  | join
  | ret
  deriving DecidableEq

/-- The kind of a statement. -/
def Stmt.kind {μ κ : Type} : Stmt μ κ → Kind
  | Stmt.mutexLock _ => Kind.mutexLock
  | Stmt.mutexUnlock _ => Kind.mutexUnlock
  | Stmt.condWait _ _ => Kind.condWait
  | Stmt.condSignal _ => Kind.condSignal
  | Stmt.condBroadcast _ => Kind.condBroadcast
  | Stmt.while_ _ _ => Kind.loop
  | Stmt.setI _ => Kind.setI
  | Stmt.incI => Kind.incI
  | Stmt.assign _ => Kind.assign
  | Stmt.printf _ => Kind.printf
  | Stmt.create _ _ => Kind.create
  | Stmt.join _ => Kind.join
  | Stmt.ret _ => Kind.ret

/-- Whether a condition mentions `resource`. -/
def Cond.readsResource : Cond → Bool
  | Cond.resourceNe _ => true
  | Cond.resourceEq _ => true
  | Cond.iLt _ => false

/-- Whether executing the statement itself reads or writes `resource`: the test
of a loop over `resource`, an assignment to it, and a `printf` of it. -/
def Stmt.accessesResource {μ κ : Type} : Stmt μ κ → Bool
  | Stmt.while_ p _ => p.readsResource
  | Stmt.assign _ => true
  | Stmt.printf _ => true
  | _ => false

/-! ## lock.h -/

section Macros
variable {μ κ : Type}

/-- The macro `LOCK(MUTEX, CODE)`:
`pthread_mutex_lock(MUTEX); CODE; pthread_mutex_unlock(MUTEX);` -/
def LOCK (MUTEX : μ) (CODE : List (Stmt μ κ)) : List (Stmt μ κ) :=
  [Stmt.mutexLock MUTEX] ++ CODE ++ [Stmt.mutexUnlock MUTEX]

/-- The macro `WAIT(MUTEX, COND, CODE)`:
`while (CODE) { pthread_cond_wait(COND, MUTEX); }` -/
def WAIT (MUTEX : μ) (COND : κ) (CODE : Cond) : List (Stmt μ κ) :=
  [Stmt.while_ CODE [Stmt.condWait COND MUTEX]]

/-- The macro `LOCK_SIGNAL(MUTEX, COND, CODE)`:
`LOCK(MUTEX, CODE); pthread_cond_signal(COND);` -/
def LOCK_SIGNAL (MUTEX : μ) (COND : κ) (CODE : List (Stmt μ κ)) : List (Stmt μ κ) :=
  LOCK MUTEX CODE ++ [Stmt.condSignal COND]

/-- The macro `LOCK_BROADCAST(MUTEX, COND, CODE)`:
`LOCK(MUTEX, CODE); pthread_cond_broadcast(COND);` -/
def LOCK_BROADCAST (MUTEX : μ) (COND : κ) (CODE : List (Stmt μ κ)) : List (Stmt μ κ) :=
  LOCK MUTEX CODE ++ [Stmt.condBroadcast COND]

end Macros

/-! ## example.c -/

/-- The one mutex of `example.c`: the global `mutex`. -/
inductive MutexId
  | mutex
  deriving DecidableEq

/-- The one condition variable of `example.c`: the global `cond`. -/
inductive CondId
  | cond
  deriving DecidableEq

/-- Statements of `example.c`. -/
abbrev CStmt := Stmt MutexId CondId

/-- The loop `for (int i = init; i < bound; i++) { body }`: the initialisation,
then the loop whose body ends with the increment. -/
def forLoop (init bound : Nat) (body : List CStmt) : List CStmt :=
  [Stmt.setI init, Stmt.while_ (Cond.iLt bound) (body ++ [Stmt.incI])]

/-- The block passed to `LOCK_SIGNAL` by `producer`:
`WAIT(&mutex, &cond, resource != 0); resource = i + 1; printf(..., resource);` -/
def producerCode : List CStmt :=
  WAIT MutexId.mutex CondId.cond (Cond.resourceNe 0) ++
    [Stmt.assign (Expr.iPlus 1), Stmt.printf Fmt.produced]

/-- The block passed to `LOCK_SIGNAL` by `consumer`:
`WAIT(&mutex, &cond, resource == 0); printf(..., resource); resource = 0;` -/
def consumerCode : List CStmt :=
  WAIT MutexId.mutex CondId.cond (Cond.resourceEq 0) ++
    [Stmt.printf Fmt.consumed, Stmt.assign (Expr.lit 0)]

/-- The function `void *producer(void *arg)`. -/
def producer : List CStmt :=
  forLoop 0 5 (LOCK_SIGNAL MutexId.mutex CondId.cond producerCode) ++ [Stmt.ret 0]

/-- The function `void *consumer(void *arg)`. -/
def consumer : List CStmt :=
  forLoop 0 5 (LOCK_SIGNAL MutexId.mutex CondId.cond consumerCode) ++ [Stmt.ret 0]

/-- The function `int main()`. -/
def main : List CStmt :=
  [Stmt.create Tid.producer producer, Stmt.create Tid.consumer consumer,
   Stmt.join Tid.producer, Stmt.join Tid.consumer, Stmt.ret 0]

/-! ## Semantics -/

/-- Scheduling status of a thread. `blocked` is a thread suspended inside
`pthread_cond_wait` on `cond`; `woken` is a thread that has been taken off the
condition variable and still has to reacquire the mutex before
`pthread_cond_wait` returns. -/
inductive Status
  | notStarted
  | running
  | blocked
  | woken
  | finished
  deriving DecidableEq

/-- A thread: its status, its local variable `i`, and the statements it still
has to execute. -/
structure Thread where
  status : Status
  i : Nat
  cont : List CStmt

/-- Accesses to `resource` recorded in the trace: a write of `v` by an
assignment, and a read of `v` by a `printf` (which prints it). -/
inductive Event
  | write (t : Tid) (v : Nat)
  | print (t : Tid) (f : Fmt) (v : Nat)
  deriving DecidableEq

/-- The globals of `example.c` (`resource`, and the owner of `mutex`), the three
threads, the exit status of the process once `main` has returned, and the trace
of the accesses to `resource`.  The threads suspended on `cond` are the threads
whose status is `blocked`. -/
structure State where
  resource : Nat
  mutex : Option Tid
  mainT : Thread
  prod : Thread
  cons : Thread
  exitCode : Option Nat
  trace : List Event

/-- The initial state: `int resource = 0`, `mutex` and `cond` statically
initialised, and only the initial thread running, at the start of `main`. -/
def init : State where
  resource := 0
  mutex := none
  mainT := { status := Status.running, i := 0, cont := main }
  prod := { status := Status.notStarted, i := 0, cont := [] }
  cons := { status := Status.notStarted, i := 0, cont := [] }
  exitCode := none
  trace := []

/-- The thread with a given identifier. -/
def State.thread (s : State) : Tid → Thread
  | Tid.main => s.mainT
  | Tid.producer => s.prod
  | Tid.consumer => s.cons

/-- Replace the thread with a given identifier. -/
def State.setThread (s : State) (t : Tid) (th : Thread) : State :=
  match t with
  | Tid.main => { s with mainT := th }
  | Tid.producer => { s with prod := th }
  | Tid.consumer => { s with cons := th }

/-- Value of a condition, given the thread's `i` and the global `resource`. -/
def Cond.eval (i resource : Nat) : Cond → Bool
  | Cond.resourceNe n => resource != n
  | Cond.resourceEq n => resource == n
  | Cond.iLt n => decide (i < n)

/-- Value of an expression, given the thread's `i`. -/
def Expr.eval (i : Nat) : Expr → Nat
  | Expr.lit n => n
  | Expr.iPlus n => i + n

/-- All thread identifiers. -/
def allTids : List Tid := [Tid.main, Tid.producer, Tid.consumer]

/-- The threads suspended on `cond`. -/
def State.waiters (s : State) : List Tid :=
  allTids.filter fun u => (s.thread u).status = Status.blocked

/-- Take thread `u` off the condition variable. -/
def State.wake (s : State) (u : Tid) : State :=
  s.setThread u { s.thread u with status := Status.woken }

/-- The outcomes of `pthread_cond_signal(&cond)`: nothing happens when no thread is
suspended on `cond`; otherwise one of the suspended threads, whichever, is woken. -/
def signalOutcomes (s : State) : List State :=
  match s.waiters with
  | [] => [s]
  | ws => ws.map s.wake

/-- The outcome of `pthread_cond_broadcast(&cond)`: every thread suspended on
`cond` is woken. -/
def broadcastOutcome (s : State) : State :=
  s.waiters.foldl State.wake s

/-- The steps thread `t` can take in state `s`: the empty list when `t` cannot
run (not started, finished, suspended on `cond`, or waiting for the mutex or for
the thread it joins), and otherwise the outcomes of its next statement. -/
def step (t : Tid) (s : State) : List State :=
  let th := s.thread t
  match th.status, th.cont with
  | Status.running, Stmt.mutexLock _ :: k =>
      if s.mutex = none then
        [{ s.setThread t { th with cont := k } with mutex := some t }]
      else []
  | Status.running, Stmt.mutexUnlock _ :: k =>
      [{ s.setThread t { th with cont := k } with mutex := none }]
  | Status.running, Stmt.condWait _ _ :: _ =>
      [{ s.setThread t { th with status := Status.blocked } with mutex := none }]
  | Status.woken, Stmt.condWait _ _ :: k =>
      if s.mutex = none then
        [{ s.setThread t { th with status := Status.running, cont := k } with mutex := some t }]
      else []
  | Status.running, Stmt.condSignal _ :: k =>
      signalOutcomes (s.setThread t { th with cont := k })
  | Status.running, Stmt.condBroadcast _ :: k =>
      [broadcastOutcome (s.setThread t { th with cont := k })]
  | Status.running, Stmt.while_ p body :: k =>
      if p.eval th.i s.resource then
        [s.setThread t { th with cont := body ++ Stmt.while_ p body :: k }]
      else
        [s.setThread t { th with cont := k }]
  | Status.running, Stmt.setI n :: k =>
      [s.setThread t { th with i := n, cont := k }]
  | Status.running, Stmt.incI :: k =>
      [s.setThread t { th with i := th.i + 1, cont := k }]
  | Status.running, Stmt.assign e :: k =>
      [{ s.setThread t { th with cont := k } with
          resource := e.eval th.i
          trace := s.trace ++ [Event.write t (e.eval th.i)] }]
  | Status.running, Stmt.printf f :: k =>
      [{ s.setThread t { th with cont := k } with
          trace := s.trace ++ [Event.print t f s.resource] }]
  | Status.running, Stmt.create u fn :: k =>
      [(s.setThread t { th with cont := k }).setThread u
          { status := Status.running, i := 0, cont := fn }]
  | Status.running, Stmt.join u :: k =>
      if (s.thread u).status = Status.finished then
        [s.setThread t { th with cont := k }]
      else []
  | Status.running, Stmt.ret v :: _ =>
      [{ s.setThread t { th with status := Status.finished, cont := [] } with
          exitCode := if t = Tid.main then some v else s.exitCode }]
  | _, _ => []

/-- A spurious wakeup of thread `t`: `pthread_cond_wait` is allowed to take a
suspended thread off the condition variable without any signal. -/
def spuriousWake (t : Tid) (s : State) : List State :=
  if (s.thread t).status = Status.blocked then [s.wake t] else []

/-- The states reachable from `init` by interleaving the steps of the threads;
with `sp = true` spurious wakeups are steps too. -/
inductive Reachable (sp : Bool) : State → Prop
  | start : Reachable sp init
  | next {s s' : State} (t : Tid) : Reachable sp s → s' ∈ step t s → Reachable sp s'
  | wakeup {s s' : State} (t : Tid) :
      sp = true → Reachable sp s → s' ∈ spuriousWake t s → Reachable sp s'

/-- Run a schedule: the listed threads take one step each, in order (the first
outcome when a step has several); `none` when a listed thread cannot run. -/
def runSchedule : List Tid → State → Option State
  | [], s => some s
  | t :: ts, s =>
    match step t s with
    | [] => none
    | s' :: _ => runSchedule ts s'

/-- A schedule given by its runs: `(n, t)` is `n` consecutive steps of `t`. -/
def schedule (runs : List (Nat × Tid)) : List Tid :=
  runs.flatMap fun r => List.replicate r.1 r.2

/-! ## Observations on states -/

/-- The thread has returned from its function. -/
def Thread.finished (th : Thread) : Prop := th.status = Status.finished

/-- The thread is suspended inside `pthread_cond_wait`. -/
def Thread.blocked (th : Thread) : Prop := th.status = Status.blocked

instance (th : Thread) : Decidable th.finished :=
  inferInstanceAs (Decidable (th.status = Status.finished))

instance (th : Thread) : Decidable th.blocked :=
  inferInstanceAs (Decidable (th.status = Status.blocked))

/-- The statement a running thread executes next. -/
def Thread.next (th : Thread) : Option CStmt :=
  match th.status with
  | Status.running => th.cont.head?
  | _ => none

/-- The kind of the statement a running thread executes next. -/
def Thread.nextKind (th : Thread) : Option Kind := th.next.map Stmt.kind

/-- The thread is between its `pthread_mutex_lock` and its
`pthread_mutex_unlock`, and not inside `pthread_cond_wait`: its next statement
is the `WAIT` test, the call of `pthread_cond_wait`, an access to `resource`, or
the unlock. -/
def Thread.inCritical (th : Thread) : Bool :=
  match th.next with
  | some st =>
      st.accessesResource || st.kind == Kind.condWait || st.kind == Kind.mutexUnlock
  | none => false

/-- Thread `t` can take a step. -/
def enabled (t : Tid) (s : State) : Prop := step t s ≠ []

/-- The values printed by the consumer, in order. -/
def consumed (tr : List Event) : List Nat :=
  tr.filterMap fun e =>
    match e with
    | Event.print Tid.consumer _ v => some v
    | _ => none

/-- The values written to `resource` by the producer, in order. -/
def produced (tr : List Event) : List Nat :=
  tr.filterMap fun e =>
    match e with
    | Event.write Tid.producer v => some v
    | _ => none

/-- A completed operation of the handoff: a `put` of `v` is the producer's write
`resource = v`, a `take` of `v` is the consumer's read of `v`. -/
inductive Op
  | put (v : Nat)
  | take (v : Nat)
  deriving DecidableEq

/-- The log of puts and takes of a trace. -/
def handoffs (tr : List Event) : List Op :=
  tr.filterMap fun e =>
    match e with
    | Event.write Tid.producer v => some (Op.put v)
    | Event.print Tid.consumer _ v => some (Op.take v)
    | _ => none

/-- The alternating log `put 1, take 1, ..., put k, take k`. -/
def alternation : Nat → List Op
  | 0 => []
  | k + 1 => alternation k ++ [Op.put (k + 1), Op.take (k + 1)]

/-! ## Program locations and the invariant

Every thread of a reachable state is at one of finitely many program locations;
a location fixes the status of the thread and the statements it still has to
execute.  The invariant `Good` is stated on `AState`, a state given by the
locations of its threads, and is checked to be inductive by enumerating the
abstract states. -/

/-- Program locations, named after the statement the thread executes next.
`waitTest` is the test of the `WAIT` loop and `loopHead` the test of the `for`
loop; `waitCall`, `blocked` and `woken` are the three phases of
`pthread_cond_wait`; `createP` ... `joinC` are the four calls of `main`. -/
inductive Loc
  | notStarted
  | init
  | loopHead
  | lock
  | waitTest
  | waitCall
  | blocked
  | woken
  | assign
  | print
  | unlock
  | signal
  | inc
  | ret
  | finished
  | createP
  | createC
  | joinP
  | joinC
  | stuck
  deriving DecidableEq

/-- The status of a thread at a location. -/
def statusOf : Loc → Status
  | Loc.notStarted => Status.notStarted
  | Loc.blocked => Status.blocked
  | Loc.woken => Status.woken
  | Loc.finished => Status.finished
  | _ => Status.running

/-- The body of the `for` loop of `producer`, increment included. -/
def pBody : List CStmt := LOCK_SIGNAL MutexId.mutex CondId.cond producerCode ++ [Stmt.incI]

/-- The body of the `for` loop of `consumer`, increment included. -/
def cBody : List CStmt := LOCK_SIGNAL MutexId.mutex CondId.cond consumerCode ++ [Stmt.incI]

/-- What `producer` executes from the test of its `for` loop on. -/
def pTail : List CStmt := [Stmt.while_ (Cond.iLt 5) pBody, Stmt.ret 0]

/-- What `consumer` executes from the test of its `for` loop on. -/
def cTail : List CStmt := [Stmt.while_ (Cond.iLt 5) cBody, Stmt.ret 0]

/-- The statements the producer still has to execute at a location. -/
def prodCont : Loc → List CStmt
  | Loc.init => producer
  | Loc.loopHead => pTail
  | Loc.lock => pBody ++ pTail
  | Loc.waitTest => pBody.drop 1 ++ pTail
  | Loc.waitCall | Loc.blocked | Loc.woken =>
      Stmt.condWait CondId.cond MutexId.mutex :: (pBody.drop 1 ++ pTail)
  | Loc.assign => pBody.drop 2 ++ pTail
  | Loc.print => pBody.drop 3 ++ pTail
  | Loc.unlock => pBody.drop 4 ++ pTail
  | Loc.signal => pBody.drop 5 ++ pTail
  | Loc.inc => pBody.drop 6 ++ pTail
  | Loc.ret => [Stmt.ret 0]
  | _ => []

/-- The statements the consumer still has to execute at a location. -/
def consCont : Loc → List CStmt
  | Loc.init => consumer
  | Loc.loopHead => cTail
  | Loc.lock => cBody ++ cTail
  | Loc.waitTest => cBody.drop 1 ++ cTail
  | Loc.waitCall | Loc.blocked | Loc.woken =>
      Stmt.condWait CondId.cond MutexId.mutex :: (cBody.drop 1 ++ cTail)
  | Loc.print => cBody.drop 2 ++ cTail
  | Loc.assign => cBody.drop 3 ++ cTail
  | Loc.unlock => cBody.drop 4 ++ cTail
  | Loc.signal => cBody.drop 5 ++ cTail
  | Loc.inc => cBody.drop 6 ++ cTail
  | Loc.ret => [Stmt.ret 0]
  | _ => []

/-- The statements `main` still has to execute at a location. -/
def mainCont : Loc → List CStmt
  | Loc.createP => main
  | Loc.createC => main.drop 1
  | Loc.joinP => main.drop 2
  | Loc.joinC => main.drop 3
  | Loc.ret => main.drop 4
  | _ => []

/-- A state given by the locations of its threads. -/
structure AState where
  lp : Loc
  pi : Nat
  lc : Loc
  ci : Nat
  lm : Loc
  r : Nat
  m : Option Tid
  ex : Option Nat
  tr : List Event

/-- The state an abstract state stands for. -/
def mkState (a : AState) : State where
  resource := a.r
  mutex := a.m
  mainT := ⟨statusOf a.lm, 0, mainCont a.lm⟩
  prod := ⟨statusOf a.lp, a.pi, prodCont a.lp⟩
  cons := ⟨statusOf a.lc, a.ci, consCont a.lc⟩
  exitCode := a.ex
  trace := a.tr

/-- The location of a thread. -/
def AState.loc (a : AState) : Tid → Loc
  | Tid.main => a.lm
  | Tid.producer => a.lp
  | Tid.consumer => a.lc

/-- Abstract counterpart of `State.wake`. -/
def AState.wake (a : AState) : Tid → AState
  | Tid.main => { a with lm := Loc.woken }
  | Tid.producer => { a with lp := Loc.woken }
  | Tid.consumer => { a with lc := Loc.woken }

/-- Abstract counterpart of `State.waiters`. -/
def AState.waiters (a : AState) : List Tid :=
  allTids.filter fun u => a.loc u = Loc.blocked

/-- Abstract counterpart of `signalOutcomes`. -/
def absSignal (a : AState) : List AState :=
  match a.waiters with
  | [] => [a]
  | ws => ws.map a.wake

/-- The steps of the producer, on locations. -/
def absProducer (a : AState) : List AState :=
  match a.lp with
  | Loc.init => [{ a with lp := Loc.loopHead, pi := 0 }]
  | Loc.loopHead =>
      if (Cond.iLt 5).eval a.pi a.r then [{ a with lp := Loc.lock }] else [{ a with lp := Loc.ret }]
  | Loc.lock => if a.m = none then [{ a with lp := Loc.waitTest, m := some Tid.producer }] else []
  | Loc.waitTest =>
      if (Cond.resourceNe 0).eval a.pi a.r then [{ a with lp := Loc.waitCall }]
      else [{ a with lp := Loc.assign }]
  | Loc.waitCall => [{ a with lp := Loc.blocked, m := none }]
  | Loc.woken => if a.m = none then [{ a with lp := Loc.waitTest, m := some Tid.producer }] else []
  | Loc.assign =>
      [{ a with lp := Loc.print, r := a.pi + 1, tr := a.tr ++ [Event.write Tid.producer (a.pi + 1)] }]
  | Loc.print =>
      [{ a with lp := Loc.unlock, tr := a.tr ++ [Event.print Tid.producer Fmt.produced a.r] }]
  | Loc.unlock => [{ a with lp := Loc.signal, m := none }]
  | Loc.signal => absSignal { a with lp := Loc.inc }
  | Loc.inc => [{ a with lp := Loc.loopHead, pi := a.pi + 1 }]
  | Loc.ret => [{ a with lp := Loc.finished }]
  | _ => []

/-- The steps of the consumer, on locations. -/
def absConsumer (a : AState) : List AState :=
  match a.lc with
  | Loc.init => [{ a with lc := Loc.loopHead, ci := 0 }]
  | Loc.loopHead =>
      if (Cond.iLt 5).eval a.ci a.r then [{ a with lc := Loc.lock }] else [{ a with lc := Loc.ret }]
  | Loc.lock => if a.m = none then [{ a with lc := Loc.waitTest, m := some Tid.consumer }] else []
  | Loc.waitTest =>
      if (Cond.resourceEq 0).eval a.ci a.r then [{ a with lc := Loc.waitCall }]
      else [{ a with lc := Loc.print }]
  | Loc.waitCall => [{ a with lc := Loc.blocked, m := none }]
  | Loc.woken => if a.m = none then [{ a with lc := Loc.waitTest, m := some Tid.consumer }] else []
  | Loc.print =>
      [{ a with lc := Loc.assign, tr := a.tr ++ [Event.print Tid.consumer Fmt.consumed a.r] }]
  | Loc.assign =>
      [{ a with lc := Loc.unlock, r := 0, tr := a.tr ++ [Event.write Tid.consumer 0] }]
  | Loc.unlock => [{ a with lc := Loc.signal, m := none }]
  | Loc.signal => absSignal { a with lc := Loc.inc }
  | Loc.inc => [{ a with lc := Loc.loopHead, ci := a.ci + 1 }]
  | Loc.ret => [{ a with lc := Loc.finished }]
  | _ => []

/-- The steps of `main`, on locations. -/
def absMain (a : AState) : List AState :=
  match a.lm with
  | Loc.createP => [{ a with lm := Loc.createC, lp := Loc.init, pi := 0 }]
  | Loc.createC => [{ a with lm := Loc.joinP, lc := Loc.init, ci := 0 }]
  | Loc.joinP =>
      if statusOf a.lp = Status.finished then [{ a with lm := Loc.joinC }] else []
  | Loc.joinC =>
      if statusOf a.lc = Status.finished then [{ a with lm := Loc.ret }] else []
  | Loc.ret => [{ a with lm := Loc.finished, ex := some 0 }]
  | _ => []

/-- Abstract counterpart of `step`. -/
def absStep : Tid → AState → List AState
  | Tid.main => absMain
  | Tid.producer => absProducer
  | Tid.consumer => absConsumer

/-- Abstract counterpart of `spuriousWake`. -/
def absSpurious (t : Tid) (a : AState) : List AState :=
  if a.loc t = Loc.blocked then [a.wake t] else []

/-- The locations of the producer and of the consumer. -/
def workerLocs : List Loc :=
  [Loc.notStarted, Loc.init, Loc.loopHead, Loc.lock, Loc.waitTest, Loc.waitCall, Loc.blocked,
   Loc.woken, Loc.assign, Loc.print, Loc.unlock, Loc.signal, Loc.inc, Loc.ret, Loc.finished]

/-- The locations of `main`. -/
def mainLocs : List Loc :=
  [Loc.createP, Loc.createC, Loc.joinP, Loc.joinC, Loc.ret, Loc.finished]

/-- The locations between `pthread_mutex_lock` and `pthread_mutex_unlock` at
which the thread owns the mutex. -/
def Loc.holds : Loc → Bool
  | Loc.waitTest | Loc.waitCall | Loc.assign | Loc.print | Loc.unlock => true
  | _ => false

/-- What is known of the loop variable at each location. -/
def Loc.iOk (l : Loc) (i : Nat) : Bool :=
  match l with
  | Loc.notStarted | Loc.init => i == 0
  | Loc.loopHead => decide (i ≤ 5)
  | Loc.ret | Loc.finished => i == 5
  | _ => decide (i < 5)

/-- Number of writes `resource = i + 1` the producer has executed. -/
def written (lp : Loc) (pi : Nat) : Nat :=
  match lp with
  | Loc.print | Loc.unlock | Loc.signal | Loc.inc => pi + 1
  | _ => pi

/-- Number of `printf` the producer has executed. -/
def pprinted (lp : Loc) (pi : Nat) : Nat :=
  match lp with
  | Loc.unlock | Loc.signal | Loc.inc => pi + 1
  | _ => pi

/-- Number of `printf` (reads of `resource`) the consumer has executed. -/
def readCnt (lc : Loc) (ci : Nat) : Nat :=
  match lc with
  | Loc.assign | Loc.unlock | Loc.signal | Loc.inc => ci + 1
  | _ => ci

/-- Number of writes `resource = 0` the consumer has executed. -/
def cleared (lc : Loc) (ci : Nat) : Nat :=
  match lc with
  | Loc.unlock | Loc.signal | Loc.inc => ci + 1
  | _ => ci

/-- The `n`-th access to `resource` of any execution (counting from 0): round
`k` is the producer's write of `k`, its `printf`, the consumer's `printf` and
the consumer's write of `0`. -/
def eventAt (n : Nat) : Event :=
  match n % 4 with
  | 0 => Event.write Tid.producer (n / 4 + 1)
  | 1 => Event.print Tid.producer Fmt.produced (n / 4 + 1)
  | 2 => Event.print Tid.consumer Fmt.consumed (n / 4 + 1)
  | _ => Event.write Tid.consumer 0

/-- The first `n` accesses to `resource` of any execution. -/
def traceUpTo : Nat → List Event
  | 0 => []
  | n + 1 => traceUpTo n ++ [eventAt n]

/-- Number of accesses to `resource` executed so far. -/
def progress (lp : Loc) (pi : Nat) (lc : Loc) (ci : Nat) : Nat :=
  written lp pi + pprinted lp pi + readCnt lc ci + cleared lc ci

/-- The owner of the mutex, from the locations. -/
def mutexOf (lp lc : Loc) : Option Tid :=
  if lp.holds then some Tid.producer else if lc.holds then some Tid.consumer else none

/-- The value of `resource`, from the locations. -/
def resourceOf (lp : Loc) (pi : Nat) (lc : Loc) (ci : Nat) : Nat :=
  if cleared lc ci < written lp pi then written lp pi else 0

/-- The exit status, from the location of `main`. -/
def exitOf (lm : Loc) : Option Nat := if lm = Loc.finished then some 0 else none

/-- The part of the invariant relating the producer, the consumer and
`resource`. -/
@[mk_iff]
structure Sync (lp : Loc) (pi : Nat) (lc : Loc) (ci : Nat) : Prop where
  excl : ¬ (lp.holds = true ∧ lc.holds = true)
  cnt : cleared lc ci ≤ written lp pi ∧ written lp pi ≤ cleared lc ci + 1
  pAssign : lp = Loc.assign → resourceOf lp pi lc ci = 0
  pWait : lp = Loc.waitCall ∨ lp = Loc.print ∨ lp = Loc.unlock → resourceOf lp pi lc ci ≠ 0
  cRead : lc = Loc.print ∨ lc = Loc.assign → resourceOf lp pi lc ci ≠ 0
  cWait : lc = Loc.waitCall ∨ lc = Loc.unlock → resourceOf lp pi lc ci = 0
  pBlocked : lp = Loc.blocked → resourceOf lp pi lc ci = 0 → lc = Loc.unlock ∨ lc = Loc.signal
  cBlocked : lc = Loc.blocked → resourceOf lp pi lc ci ≠ 0 →
    lp = Loc.print ∨ lp = Loc.unlock ∨ lp = Loc.signal

instance (lp : Loc) (pi : Nat) (lc : Loc) (ci : Nat) : Decidable (Sync lp pi lc ci) :=
  decidable_of_iff _ (sync_iff lp pi lc ci).symm

/-- The part of the invariant relating `main` and the threads it creates and
joins. -/
@[mk_iff]
structure MainOk (lp lc lm : Loc) : Prop where
  mCreateP : lm = Loc.createP → lp = Loc.notStarted ∧ lc = Loc.notStarted
  mCreateC : lm = Loc.createC → lp ≠ Loc.notStarted ∧ lc = Loc.notStarted
  mJoinP : lm = Loc.joinP → lp ≠ Loc.notStarted ∧ lc ≠ Loc.notStarted
  mJoinC : lm = Loc.joinC → lp = Loc.finished ∧ lc ≠ Loc.notStarted
  mRet : lm = Loc.ret ∨ lm = Loc.finished → lp = Loc.finished ∧ lc = Loc.finished

instance (lp lc lm : Loc) : Decidable (MainOk lp lc lm) :=
  decidable_of_iff _ (mainOk_iff lp lc lm).symm

/-- The invariant, on abstract states. -/
@[mk_iff]
structure Good (a : AState) : Prop where
  wp : a.lp ∈ workerLocs
  ip : a.lp.iOk a.pi = true
  wc : a.lc ∈ workerLocs
  ic : a.lc.iOk a.ci = true
  sync : Sync a.lp a.pi a.lc a.ci
  wm : a.lm ∈ mainLocs
  main : MainOk a.lp a.lc a.lm
  res : a.r = resourceOf a.lp a.pi a.lc a.ci
  mtx : a.m = mutexOf a.lp a.lc
  ex : a.ex = exitOf a.lm
  tr : a.tr = traceUpTo (progress a.lp a.pi a.lc a.ci)

instance (a : AState) : Decidable (Good a) := decidable_of_iff _ (good_iff a).symm

/-- No deadlock, on abstract states: while the producer or the consumer has not
returned some thread can take a step, once both have been created one of the
two can, and when no thread can take a step all three have returned and the exit
status is `0`. -/
def Live (a : AState) : Prop :=
  ((a.lp ≠ Loc.finished ∨ a.lc ≠ Loc.finished) → ∃ t ∈ allTids, (absStep t a).isEmpty = false) ∧
    (a.lp ≠ Loc.notStarted → a.lc ≠ Loc.notStarted →
      (a.lp ≠ Loc.finished ∨ a.lc ≠ Loc.finished) →
        (absProducer a).isEmpty = false ∨ (absConsumer a).isEmpty = false) ∧
    ((∀ t ∈ allTids, (absStep t a).isEmpty = true) →
      a.lp = Loc.finished ∧ a.lc = Loc.finished ∧ a.lm = Loc.finished ∧ a.ex = some 0)

instance (a : AState) : Decidable (Live a) := by
  unfold Live; infer_instance

/-- A thread becomes suspended on `cond` only by its own call of
`pthread_cond_wait`, on abstract states. -/
def Susp (a : AState) : Prop :=
  ∀ t ∈ allTids, ∀ a' ∈ absStep t a, ∀ u ∈ allTids,
    a'.loc u = Loc.blocked → a.loc u = Loc.blocked ∨ (u = t ∧ a.loc t = Loc.waitCall)

instance (a : AState) : Decidable (Susp a) := by
  unfold Susp; infer_instance

/-- The abstract state with the given locations and loop variables that
satisfies the equations of the invariant. -/
def cand (lp : Loc) (pi : Nat) (lc : Loc) (ci : Nat) (lm : Loc) : AState :=
  ⟨lp, pi, lc, ci, lm, resourceOf lp pi lc ci, mutexOf lp lc, exitOf lm,
    traceUpTo (progress lp pi lc ci)⟩

/-- The invariant, on states: the state is given by locations that satisfy
`Good`. -/
def Inv (s : State) : Prop := ∃ a, Good a ∧ s = mkState a

/-- The kind of the statement executed next at a location. -/
def Loc.kind : Loc → Option Kind
  | Loc.init => some Kind.setI
  | Loc.loopHead => some Kind.loop
  | Loc.lock => some Kind.mutexLock
  | Loc.waitTest => some Kind.loop
  | Loc.waitCall => some Kind.condWait
  | Loc.assign => some Kind.assign
  | Loc.print => some Kind.printf
  | Loc.unlock => some Kind.mutexUnlock
  | Loc.signal => some Kind.condSignal
  | Loc.inc => some Kind.incI
  | Loc.ret => some Kind.ret
  | Loc.createP => some Kind.create
  | Loc.createC => some Kind.create
  | Loc.joinP => some Kind.join
  | Loc.joinC => some Kind.join
  | _ => none

/-- The thread configurations of a thread that is inside `WAIT(M, C, P)`
followed by the statements `k`: at the test of the loop, at the call of
`pthread_cond_wait`, suspended in it, or woken and waiting for the mutex. -/
def inWait (M : MutexId) (C : CondId) (P : Cond) (i : Nat) (k : List CStmt) (th : Thread) : Prop :=
  th = ⟨Status.running, i, WAIT M C P ++ k⟩ ∨
    th = ⟨Status.running, i, Stmt.condWait C M :: (WAIT M C P ++ k)⟩ ∨
    th = ⟨Status.blocked, i, Stmt.condWait C M :: (WAIT M C P ++ k)⟩ ∨
    th = ⟨Status.woken, i, Stmt.condWait C M :: (WAIT M C P ++ k)⟩

/-! ## States reached by particular schedules -/

/-- The state reached from `init` by a schedule given by its runs (`init` itself
when the schedule cannot be run). -/
def afterSchedule (runs : List (Nat × Tid)) : State :=
  (runSchedule (schedule runs) init).getD init

/-- A complete execution: the producer runs until it is suspended or has
returned, then the consumer does, and so on. -/
def completeRuns : List (Nat × Tid) :=
  [(1, Tid.main), (13, Tid.producer), (1, Tid.main), (8, Tid.consumer),
   (11, Tid.producer), (8, Tid.consumer), (11, Tid.producer), (8, Tid.consumer),
   (11, Tid.producer), (8, Tid.consumer), (9, Tid.producer), (11, Tid.consumer), (3, Tid.main)]

/-- The producer has put `1` and is suspended before its second put; the
consumer has taken `1` and signalled. -/
def firstHandoffRuns : List (Nat × Tid) :=
  [(1, Tid.main), (13, Tid.producer), (1, Tid.main), (8, Tid.consumer)]

/-- The producer has written `1` and is about to print it; the consumer has not
been created. -/
def firstPutRuns : List (Nat × Tid) := [(1, Tid.main), (5, Tid.producer)]

/-- The consumer has locked the mutex and is at the test of its `WAIT`; the
producer has not run. -/
def consumerAtTestRuns : List (Nat × Tid) := [(2, Tid.main), (3, Tid.consumer)]

/-- The producer is about to execute `resource = i + 1`. -/
def producerAtAssignRuns : List (Nat × Tid) := [(1, Tid.main), (4, Tid.producer)]

/-- The consumer is suspended in `pthread_cond_wait`; the producer has not run. -/
def consumerSuspendedRuns : List (Nat × Tid) := [(2, Tid.main), (5, Tid.consumer)]

/-- The producer has unlocked the mutex and is about to signal. -/
def producerAtSignalRuns : List (Nat × Tid) := [(1, Tid.main), (7, Tid.producer)]

/-- The consumer is suspended in `pthread_cond_wait` and the producer has
written `1` since. -/
def pendingSignalRuns : List (Nat × Tid) :=
  [(2, Tid.main), (5, Tid.consumer), (5, Tid.producer)]

/-! ## The steps of the threads, on locations -/

theorem step_producer_eq (a : AState) :
    step Tid.producer (mkState a) = (absProducer a).map mkState := by
  rcases a with ⟨lp, pi, lc, ci, lm, r, m, ex, tr⟩
  cases lp <;> try rfl
  case loopHead => simp only [absProducer, apply_ite (List.map mkState)]; rfl
  case lock => cases m <;> rfl
  case waitTest => simp only [absProducer, apply_ite (List.map mkState)]; rfl
  case woken => cases m <;> rfl
  case signal => cases lc <;> cases lm <;> rfl

theorem step_consumer_eq (a : AState) :
    step Tid.consumer (mkState a) = (absConsumer a).map mkState := by
  rcases a with ⟨lp, pi, lc, ci, lm, r, m, ex, tr⟩
  cases lc <;> try rfl
  case loopHead => simp only [absConsumer, apply_ite (List.map mkState)]; rfl
  case lock => cases m <;> rfl
  case waitTest => simp only [absConsumer, apply_ite (List.map mkState)]; rfl
  case woken => cases m <;> rfl
  case signal => cases lp <;> cases lm <;> rfl

theorem step_main_eq (a : AState) :
    step Tid.main (mkState a) = (absMain a).map mkState := by
  rcases a with ⟨lp, pi, lc, ci, lm, r, m, ex, tr⟩
  cases lm <;> try rfl
  case joinP => simp only [absMain, apply_ite (List.map mkState)]; rfl
  case joinC => simp only [absMain, apply_ite (List.map mkState)]; rfl

theorem step_eq (t : Tid) (a : AState) :
    step t (mkState a) = (absStep t a).map mkState := by
  cases t
  · exact step_main_eq a
  · exact step_producer_eq a
  · exact step_consumer_eq a

theorem spurious_eq (t : Tid) (a : AState) :
    spuriousWake t (mkState a) = (absSpurious t a).map mkState := by
  rcases a with ⟨lp, pi, lc, ci, lm, r, m, ex, tr⟩
  cases t
  · cases lm <;> rfl
  · cases lp <;> rfl
  · cases lc <;> rfl

/-! ## The invariant is inductive -/

/-- Exhaustive check: from every abstract state that satisfies the invariant,
every step and every spurious wakeup leads to a state that satisfies it; and
every such state satisfies `Live` and `Susp`. -/
theorem good_checked :
    ∀ lp ∈ workerLocs, ∀ pi < 6, lp.iOk pi = true → ∀ lc ∈ workerLocs, ∀ ci < 6, lc.iOk ci = true →
      Sync lp pi lc ci → ∀ lm ∈ mainLocs, MainOk lp lc lm →
        (∀ t ∈ allTids,
          ∀ a' ∈ absStep t (cand lp pi lc ci lm) ++ absSpurious t (cand lp pi lc ci lm), Good a') ∧
        Live (cand lp pi lc ci lm) ∧ Susp (cand lp pi lc ci lm) := by
  decide!

theorem iOk_lt {l : Loc} {i : Nat} (h : l.iOk i = true) : i < 6 := by
  cases l <;> simp [Loc.iOk] at h <;> omega

theorem Good.eq_cand {a : AState} (hg : Good a) : a = cand a.lp a.pi a.lc a.ci a.lm := by
  obtain ⟨_, _, _, _, _, _, _, hr, hm, he, ht⟩ := hg
  rcases a with ⟨lp, pi, lc, ci, lm, r, m, ex, tr⟩
  simp only at hr hm he ht
  subst hr hm he ht
  rfl

theorem mem_allTids (t : Tid) : t ∈ allTids := by
  cases t <;> simp [allTids]

theorem Good.checked {a : AState} (hg : Good a) :
    (∀ t ∈ allTids, ∀ a' ∈ absStep t a ++ absSpurious t a, Good a') ∧ Live a ∧ Susp a := by
  rw [hg.eq_cand]
  exact good_checked a.lp hg.wp a.pi (iOk_lt hg.ip) hg.ip a.lc hg.wc a.ci (iOk_lt hg.ic) hg.ic
    hg.sync a.lm hg.wm hg.main

theorem Good.next {a a' : AState} (hg : Good a) (t : Tid)
    (h : a' ∈ absStep t a ++ absSpurious t a) : Good a' :=
  hg.checked.1 t (mem_allTids t) a' h

theorem good_init : Good (cand Loc.notStarted 0 Loc.notStarted 0 Loc.createP) := by
  decide

theorem inv_init : Inv init :=
  ⟨cand Loc.notStarted 0 Loc.notStarted 0 Loc.createP, good_init, rfl⟩

theorem inv_step {s s' : State} (t : Tid) (h : Inv s) (hs : s' ∈ step t s) : Inv s' := by
  obtain ⟨a, hg, rfl⟩ := h
  rw [step_eq, List.mem_map] at hs
  obtain ⟨a', ha', rfl⟩ := hs
  exact ⟨a', hg.next t (List.mem_append_left _ ha'), rfl⟩

theorem inv_spurious {s s' : State} (t : Tid) (h : Inv s) (hs : s' ∈ spuriousWake t s) :
    Inv s' := by
  obtain ⟨a, hg, rfl⟩ := h
  rw [spurious_eq, List.mem_map] at hs
  obtain ⟨a', ha', rfl⟩ := hs
  exact ⟨a', hg.next t (List.mem_append_right _ ha'), rfl⟩

theorem reachable_inv {sp : Bool} {s : State} (h : Reachable sp s) : Inv s := by
  induction h with
  | start => exact inv_init
  | next t _ hs ih => exact inv_step t ih hs
  | wakeup t _ _ hs ih => exact inv_spurious t ih hs

theorem reachable_run {sp : Bool} (ts : List Tid) :
    ∀ {s s' : State}, Reachable sp s → runSchedule ts s = some s' → Reachable sp s' := by
  induction ts with
  | nil =>
    intro s s' h hr
    simp only [runSchedule, Option.some.injEq] at hr
    exact hr ▸ h
  | cons t ts ih =>
    intro s s' h hr
    unfold runSchedule at hr
    split at hr
    · exact absurd hr (by simp)
    · rename_i s1 rest hstep
      exact ih (Reachable.next t h (by rw [hstep]; exact List.mem_cons_self _ _)) hr

/-! ## Consequences of the invariant -/

theorem statusOf_finished {l : Loc} : statusOf l = Status.finished ↔ l = Loc.finished := by
  cases l <;> simp [statusOf]

theorem statusOf_blocked {l : Loc} : statusOf l = Status.blocked ↔ l = Loc.blocked := by
  cases l <;> simp [statusOf]

theorem written_le {l : Loc} {i : Nat} (h : l.iOk i = true) : written l i ≤ 5 := by
  cases l <;> simp [Loc.iOk] at h <;> simp [written] <;> omega

theorem pprinted_le {l : Loc} {i : Nat} (h : l.iOk i = true) : pprinted l i ≤ 5 := by
  cases l <;> simp [Loc.iOk] at h <;> simp [pprinted] <;> omega

theorem readCnt_le {l : Loc} {i : Nat} (h : l.iOk i = true) : readCnt l i ≤ 5 := by
  cases l <;> simp [Loc.iOk] at h <;> simp [readCnt] <;> omega

theorem cleared_le {l : Loc} {i : Nat} (h : l.iOk i = true) : cleared l i ≤ 5 := by
  cases l <;> simp [Loc.iOk] at h <;> simp [cleared] <;> omega

theorem Good.progress_lt {a : AState} (hg : Good a) : progress a.lp a.pi a.lc a.ci < 21 := by
  have h1 := written_le hg.ip
  have h2 := pprinted_le hg.ip
  have h3 := readCnt_le hg.ic
  have h4 := cleared_le hg.ic
  unfold progress
  omega

/-- The trace of a reachable state is an initial segment of the one sequence of
accesses `eventAt 0, eventAt 1, ...`, of length at most 20. -/
theorem reachable_trace {sp : Bool} {s : State} (h : Reachable sp s) :
    ∃ n, n < 21 ∧ s.trace = traceUpTo n := by
  obtain ⟨a, hg, rfl⟩ := reachable_inv h
  exact ⟨_, hg.progress_lt, hg.tr⟩

theorem consumed_traceUpTo :
    ∀ n < 21, consumed (traceUpTo n) <+: [1, 2, 3, 4, 5] := by
  decide

theorem handoffs_traceUpTo :
    ∀ n < 21, (∃ k < 6, handoffs (traceUpTo n) = alternation k ∨
        (k < 5 ∧ handoffs (traceUpTo n) = alternation k ++ [Op.put (k + 1)])) ∧
      consumed (traceUpTo n) = (produced (traceUpTo n)).take (consumed (traceUpTo n)).length ∧
      ((produced (traceUpTo n)).length = (consumed (traceUpTo n)).length ∨
        (produced (traceUpTo n)).length = (consumed (traceUpTo n)).length + 1) := by
  decide

theorem finished_final {a : AState} (hg : Good a)
    (hp : (mkState a).prod.finished) (hc : (mkState a).cons.finished) :
    a.lp = Loc.finished ∧ a.lc = Loc.finished ∧ a.pi = 5 ∧ a.ci = 5 := by
  have h1 : a.lp = Loc.finished := statusOf_finished.mp hp
  have h2 : a.lc = Loc.finished := statusOf_finished.mp hc
  have h3 := hg.ip
  have h4 := hg.ic
  rw [h1] at h3
  rw [h2] at h4
  simp [Loc.iOk] at h3 h4
  exact ⟨h1, h2, h3, h4⟩

theorem nextKind_prod {l : Loc} (i : Nat) (h : l ∈ workerLocs) :
    Thread.nextKind ⟨statusOf l, i, prodCont l⟩ = l.kind := by
  cases l <;> first | rfl | simp [workerLocs] at h

theorem nextKind_cons {l : Loc} (i : Nat) (h : l ∈ workerLocs) :
    Thread.nextKind ⟨statusOf l, i, consCont l⟩ = l.kind := by
  cases l <;> first | rfl | simp [workerLocs] at h

theorem nextKind_main {l : Loc} (i : Nat) (h : l ∈ mainLocs) :
    Thread.nextKind ⟨statusOf l, i, mainCont l⟩ = l.kind := by
  cases l <;> first | rfl | simp [mainLocs] at h

theorem inCritical_prod (l : Loc) (i : Nat) :
    Thread.inCritical ⟨statusOf l, i, prodCont l⟩ = l.holds := by
  cases l <;> rfl

theorem inCritical_cons (l : Loc) (i : Nat) :
    Thread.inCritical ⟨statusOf l, i, consCont l⟩ = l.holds := by
  cases l <;> rfl

theorem inCritical_main (l : Loc) (i : Nat) :
    Thread.inCritical ⟨statusOf l, i, mainCont l⟩ = false := by
  cases l <;> rfl

theorem accesses_inCritical {th : Thread} {st : CStmt} (h : th.next = some st)
    (ha : st.accessesResource = true) : th.inCritical = true := by
  simp [Thread.inCritical, h, ha]

theorem mutexOf_producer {lp lc : Loc} (h : ¬ (lp.holds = true ∧ lc.holds = true)) :
    mutexOf lp lc = some Tid.producer ↔ lp.holds = true := by
  unfold mutexOf
  cases hp : lp.holds <;> cases hc : lc.holds <;> simp_all

theorem mutexOf_consumer {lp lc : Loc} (h : ¬ (lp.holds = true ∧ lc.holds = true)) :
    mutexOf lp lc = some Tid.consumer ↔ lc.holds = true := by
  unfold mutexOf
  cases hp : lp.holds <;> cases hc : lc.holds <;> simp_all

theorem mutexOf_main (lp lc : Loc) : mutexOf lp lc ≠ some Tid.main := by
  unfold mutexOf
  cases hp : lp.holds <;> cases hc : lc.holds <;> simp

theorem kind_assign {l : Loc} (h : l.kind = some Kind.assign) : l = Loc.assign := by
  cases l <;> first | rfl | simp [Loc.kind] at h

theorem Good.prod_assign {a : AState} (hg : Good a)
    (h : (mkState a).prod.nextKind = some Kind.assign) : a.lp = Loc.assign := by
  have h' : Thread.nextKind ⟨statusOf a.lp, a.pi, prodCont a.lp⟩ = some Kind.assign := h
  rw [nextKind_prod _ hg.wp] at h'
  exact kind_assign h'

theorem Good.cons_assign {a : AState} (hg : Good a)
    (h : (mkState a).cons.nextKind = some Kind.assign) : a.lc = Loc.assign := by
  have h' : Thread.nextKind ⟨statusOf a.lc, a.ci, consCont a.lc⟩ = some Kind.assign := h
  rw [nextKind_cons _ hg.wc] at h'
  exact kind_assign h'

theorem produced_traceUpTo : ∀ n < 21, produced (traceUpTo n) = [] → n = 0 := by
  decide

theorem first_consumed_traceUpTo :
    ∀ n < 21, ∀ v ∈ (consumed (traceUpTo n)).head?, v = 1 := by
  decide

theorem progress_zero {lp lc : Loc} {pi ci : Nat} (h : progress lp pi lc ci = 0) :
    written lp pi = 0 ∧ readCnt lc ci = 0 ∧ cleared lc ci = 0 := by
  unfold progress at h
  omega

theorem statusOf_notStarted {l : Loc} : statusOf l = Status.notStarted ↔ l = Loc.notStarted := by
  cases l <;> simp [statusOf]

theorem enabled_iff (t : Tid) (a : AState) :
    enabled t (mkState a) ↔ (absStep t a).isEmpty = false := by
  unfold enabled
  rw [step_eq]
  cases absStep t a <;> simp

theorem nextKind_running {th : Thread} {k : Kind} (h : th.nextKind = some k) :
    th.status = Status.running ∧ ∃ st rest, th.cont = st :: rest ∧ st.kind = k := by
  rcases th with ⟨st, i, c⟩
  cases st <;> simp [Thread.nextKind, Thread.next] at h
  obtain ⟨x, hx, hk⟩ := h
  cases c with
  | nil => simp at hx
  | cons hd tl =>
    simp at hx
    subst hx
    exact ⟨rfl, hd, tl, rfl, hk⟩

theorem kind_condSignal {st : CStmt} (h : st.kind = Kind.condSignal) :
    ∃ c, st = Stmt.condSignal c := by
  cases st <;> simp [Stmt.kind] at h
  exact ⟨_, rfl⟩

theorem kind_condBroadcast {st : CStmt} (h : st.kind = Kind.condBroadcast) :
    ∃ c, st = Stmt.condBroadcast c := by
  cases st <;> simp [Stmt.kind] at h
  exact ⟨_, rfl⟩

theorem waiters_setCont (s : State) (t : Tid) (k : List CStmt) :
    (s.setThread t { s.thread t with cont := k }).waiters = s.waiters := by
  cases t <;> rfl

/-- What `pthread_cond_signal` does to the threads suspended on `cond`: one less, or none when there was none. -/
theorem signal_wakes_one (s : State) :
    ∀ s' ∈ signalOutcomes s,
      (s.waiters = [] ∧ s' = s) ∨ s'.waiters.length + 1 = s.waiters.length := by
  rcases s with ⟨r, m, ⟨ms, mi, mk⟩, ⟨ps, pi, pk⟩, ⟨cs, ci, ck⟩, ex, tr⟩
  by_cases hm : ms = Status.blocked <;> by_cases hp : ps = Status.blocked <;>
    by_cases hc : cs = Status.blocked <;>
    simp [signalOutcomes, State.waiters, State.wake, State.thread, State.setThread, allTids,
      List.filter, hm, hp, hc]

/-- What `pthread_cond_broadcast` does to the threads suspended on `cond`: none is left. -/
theorem broadcast_wakes_all (s : State) : (broadcastOutcome s).waiters = [] := by
  rcases s with ⟨r, m, ⟨ms, mi, mk⟩, ⟨ps, pi, pk⟩, ⟨cs, ci, ck⟩, ex, tr⟩
  by_cases hm : ms = Status.blocked <;> by_cases hp : ps = Status.blocked <;>
    by_cases hc : cs = Status.blocked <;>
    simp [broadcastOutcome, State.waiters, State.wake, State.thread, State.setThread, allTids,
      List.filter, hm, hp, hc]

/-- The owner of the mutex is the thread between its lock and its unlock. -/
theorem Good.owner_iff {a : AState} (hg : Good a) (t : Tid) :
    (mkState a).mutex = some t ↔ ((mkState a).thread t).inCritical = true := by
  have hex := hg.sync.excl
  show a.m = some t ↔ _
  rw [hg.mtx]
  cases t
  · show _ ↔ Thread.inCritical ⟨statusOf a.lm, 0, mainCont a.lm⟩ = true
    rw [inCritical_main]
    simp [mutexOf_main]
  · show _ ↔ Thread.inCritical ⟨statusOf a.lp, a.pi, prodCont a.lp⟩ = true
    rw [inCritical_prod]
    exact mutexOf_producer hex
  · show _ ↔ Thread.inCritical ⟨statusOf a.lc, a.ci, consCont a.lc⟩ = true
    rw [inCritical_cons]
    exact mutexOf_consumer hex

theorem not_inCritical_of_signal {th : Thread} (h : th.nextKind = some Kind.condSignal) :
    th.inCritical = false := by
  obtain ⟨hs, st, rest, hc, hk⟩ := nextKind_running h
  obtain ⟨c, rfl⟩ := kind_condSignal hk
  rcases th with ⟨s0, i, k⟩
  simp only at hs hc
  subst hs hc
  rfl

theorem thread_setThread (s : State) (t : Tid) (th : Thread) : (s.setThread t th).thread t = th := by
  cases t <;> rfl

theorem thread_setThread_mutex (s : State) (t : Tid) (th : Thread) (m : Option Tid) :
    ({ s.setThread t th with mutex := m } : State).thread t = th := by
  cases t <;> rfl

theorem step_waitTest {t : Tid} {s : State} {M : MutexId} {C : CondId} {P : Cond} {i : Nat}
    {k : List CStmt} (h : s.thread t = ⟨Status.running, i, WAIT M C P ++ k⟩) :
    step t s = [s.setThread t ⟨Status.running, i,
      if P.eval i s.resource = true then Stmt.condWait C M :: (WAIT M C P ++ k) else k⟩] := by
  by_cases hp : P.eval i s.resource = true <;> simp [step, h, WAIT, hp]

theorem step_waitCall {t : Tid} {s : State} {M : MutexId} {C : CondId} {i : Nat}
    {k : List CStmt} (h : s.thread t = ⟨Status.running, i, Stmt.condWait C M :: k⟩) :
    step t s = [{ s.setThread t ⟨Status.blocked, i, Stmt.condWait C M :: k⟩ with mutex := none }] := by
  simp [step, h]

theorem step_waitBlocked {t : Tid} {s : State} {i : Nat} {k : List CStmt}
    (h : s.thread t = ⟨Status.blocked, i, k⟩) : step t s = [] := by
  simp [step, h]

theorem step_waitReturn {t : Tid} {s : State} {M : MutexId} {C : CondId} {i : Nat}
    {k : List CStmt} (h : s.thread t = ⟨Status.woken, i, Stmt.condWait C M :: k⟩) :
    step t s = if s.mutex = none then
      [{ s.setThread t ⟨Status.running, i, k⟩ with mutex := some t }] else [] := by
  simp [step, h]

theorem loc_kind_condSignal {l : Loc} (h : l.kind = some Kind.condSignal) : l = Loc.signal := by
  cases l <;> first | rfl | simp [Loc.kind] at h

theorem kind_condWait {l : Loc} (h : l.kind = some Kind.condWait) : l = Loc.waitCall := by
  cases l <;> first | rfl | simp [Loc.kind] at h

theorem blocked_iff (t : Tid) (a : AState) :
    ((mkState a).thread t).blocked ↔ a.loc t = Loc.blocked := by
  cases t <;> exact statusOf_blocked

theorem Good.nextKind_eq {a : AState} (hg : Good a) (t : Tid) :
    ((mkState a).thread t).nextKind = (a.loc t).kind := by
  cases t
  · exact nextKind_main _ hg.wm
  · exact nextKind_prod _ hg.wp
  · exact nextKind_cons _ hg.wc

/-! ## The properties of the handoff -/

/-- C1. In every reachable state in which the producer and the consumer have both
returned, the values printed by the consumer are exactly `1, 2, 3, 4, 5`, in
that order; and in every reachable state the values printed by the consumer so
far are a prefix of `1, 2, 3, 4, 5`. -/
theorem consumed_sequence (sp : Bool) (s : State) (h : Reachable sp s) :
    (s.prod.finished → s.cons.finished → consumed s.trace = [1, 2, 3, 4, 5]) ∧
      consumed s.trace <+: [1, 2, 3, 4, 5] := by
  constructor
  · intro hp hc
    obtain ⟨a, hg, rfl⟩ := reachable_inv h
    obtain ⟨h1, h2, h3, h4⟩ := finished_final hg hp hc
    have ht := hg.tr
    rw [h1, h2, h3, h4] at ht
    show consumed a.tr = _
    rw [ht]
    decide
  · obtain ⟨n, hn, ht⟩ := reachable_trace h
    rw [ht]
    exact consumed_traceUpTo n hn

/-- C2. In every reachable state the log of completed puts and takes alternates
`put 1, take 1, put 2, take 2, ...`, possibly ending with a put that has not been
taken yet; the values taken are the values put, in the same order, and the
number of puts exceeds the number of takes by 0 or 1. -/
theorem handoff_alternates (sp : Bool) (s : State) (h : Reachable sp s) :
    (∃ k < 6, handoffs s.trace = alternation k ∨
        (k < 5 ∧ handoffs s.trace = alternation k ++ [Op.put (k + 1)])) ∧
      consumed s.trace = (produced s.trace).take (consumed s.trace).length ∧
      ((produced s.trace).length = (consumed s.trace).length ∨
        (produced s.trace).length = (consumed s.trace).length + 1) := by
  obtain ⟨n, hn, ht⟩ := reachable_trace h
  rw [ht]
  exact handoffs_traceUpTo n hn

/-- C3. In every reachable state in which the producer has not yet executed its
first write `resource = 1`: the consumer has read nothing and written nothing,
`resource` is `0`, the consumer is in its first iteration and not past its
`WAIT` (if it is running, its next statement is the initialisation or test of
its `for` loop, its `pthread_mutex_lock`, the test of the `WAIT` loop or the call
of `pthread_cond_wait`), and every step the consumer takes while it owns the
mutex leads to the call of `pthread_cond_wait` or suspends it.  And in every
reachable state the first value read by the consumer, if any, is `1`. -/
theorem first_take_after_first_put (sp : Bool) (s : State) (h : Reachable sp s) :
    (produced s.trace = [] →
        consumed s.trace = [] ∧ s.trace = [] ∧ s.resource = 0 ∧
          s.cons.i = 0 ∧ ¬ s.cons.finished ∧
          (∀ k, s.cons.nextKind = some k →
            k = Kind.setI ∨ k = Kind.loop ∨ k = Kind.mutexLock ∨ k = Kind.condWait) ∧
          (s.cons.inCritical = true → ∀ s' ∈ step Tid.consumer s,
            s'.cons.nextKind = some Kind.condWait ∨ s'.cons.blocked)) ∧
      ∀ v, (consumed s.trace).head? = some v → v = 1 := by
  constructor
  · intro hno
    obtain ⟨a, hg, rfl⟩ := reachable_inv h
    have ht : a.tr = traceUpTo (progress a.lp a.pi a.lc a.ci) := hg.tr
    have hn : progress a.lp a.pi a.lc a.ci = 0 := by
      apply produced_traceUpTo _ hg.progress_lt
      rw [← ht]
      exact hno
    obtain ⟨hw, hrd, hcl⟩ := progress_zero hn
    have hr : a.r = 0 := by
      rw [hg.res]
      unfold resourceOf
      rw [hw, hcl]
      rfl
    have htr : a.tr = [] := by rw [ht, hn]; rfl
    have hcr := hg.sync.cRead
    rw [← hg.res, hr] at hcr
    have hwc := hg.wc
    have hic := hg.ic
    rcases a with ⟨lp, pi, lc, ci, lm, r, m, ex, tr⟩
    simp only at hrd hcl hr htr hcr hwc hic
    subst hr htr
    refine ⟨rfl, rfl, rfl, ?_, ?_, ?_, ?_⟩
    · show ci = 0
      cases lc <;> simp [readCnt] at hrd <;> simp [hrd]
    · show ¬ statusOf lc = Status.finished
      rw [statusOf_finished]
      rintro rfl
      simp [Loc.iOk, readCnt] at hic hrd
      omega
    · intro k hk
      have hk' : Thread.nextKind ⟨statusOf lc, ci, consCont lc⟩ = some k := hk
      rw [nextKind_cons _ hwc] at hk'
      cases lc <;> simp [Loc.kind] at hk' <;> simp [workerLocs] at hwc <;>
        simp [readCnt, Loc.iOk] at hrd hic hcr <;> first | omega | (subst hk'; simp)
    · intro hc s' hs'
      have hc' : Thread.inCritical ⟨statusOf lc, ci, consCont lc⟩ = true := hc
      rw [inCritical_cons] at hc'
      rw [step_consumer_eq] at hs'
      cases lc <;> simp [Loc.holds] at hc' <;> simp [readCnt] at hrd hcr
      · simp only [absConsumer, Cond.eval, beq_self_eq_true, if_true, List.map_cons,
          List.map_nil, List.mem_singleton] at hs'
        subst hs'
        exact Or.inl rfl
      · simp only [absConsumer, List.map_cons, List.map_nil, List.mem_singleton] at hs'
        subst hs'
        exact Or.inr rfl
  · obtain ⟨n, hn, ht⟩ := reachable_trace h
    rw [ht]
    intro v hv
    exact first_consumed_traceUpTo n hn v hv

/-- C4. In every reachable state in which the producer and the consumer have both
completed their five iterations and returned, `resource` is `0` and the mutex
is free. -/
theorem final_slot_empty (sp : Bool) (s : State) (h : Reachable sp s)
    (hp : s.prod.finished) (hc : s.cons.finished) :
    s.resource = 0 ∧ s.mutex = none := by
  obtain ⟨a, hg, rfl⟩ := reachable_inv h
  obtain ⟨h1, h2, h3, h4⟩ := finished_final hg hp hc
  have hr := hg.res
  have hm := hg.mtx
  rw [h1, h2, h3, h4] at hr
  rw [h1, h2] at hm
  exact ⟨hr, hm⟩

/-- C5. In every reachable state the producer and the consumer are not both
between their lock and their unlock, `main` never is, the owner of the mutex is
exactly the thread that is, and every thread whose next statement reads or
writes `resource` (the test of a `WAIT` predicate, also when it is evaluated
again after `pthread_cond_wait` has returned, a `printf` of `resource`, an
assignment to `resource`) owns the mutex. -/
theorem mutex_discipline (sp : Bool) (s : State) (h : Reachable sp s) :
    ¬ (s.prod.inCritical = true ∧ s.cons.inCritical = true) ∧
      s.mainT.inCritical = false ∧
      (∀ t, s.mutex = some t ↔ (s.thread t).inCritical = true) ∧
      (∀ t st, (s.thread t).next = some st → st.accessesResource = true → s.mutex = some t) := by
  obtain ⟨a, hg, rfl⟩ := reachable_inv h
  have hex := hg.sync.excl
  have h3 := hg.owner_iff
  refine ⟨?_, inCritical_main _ _, h3, ?_⟩
  · show ¬ (Thread.inCritical ⟨statusOf a.lp, a.pi, prodCont a.lp⟩ = true ∧
      Thread.inCritical ⟨statusOf a.lc, a.ci, consCont a.lc⟩ = true)
    rw [inCritical_prod, inCritical_cons]
    exact hex
  · intro t st hn ha
    exact (h3 t).mpr (accesses_inCritical hn ha)

/-- C6. In every reachable state: when the producer is about to execute
`resource = i + 1`, `resource` is `0`, and the step leaves `resource` equal to
`i + 1`, a value in `1..5`; when the consumer is about to execute
`resource = 0`, `resource` is not `0`, and the step leaves it `0`; and
`resource` is at most `5`. -/
theorem slot_transitions (sp : Bool) (s : State) (h : Reachable sp s) :
    (s.prod.nextKind = some Kind.assign →
        s.resource = 0 ∧
          ∀ s' ∈ step Tid.producer s,
            s'.resource = s.prod.i + 1 ∧ 1 ≤ s'.resource ∧ s'.resource ≤ 5) ∧
      (s.cons.nextKind = some Kind.assign →
        s.resource ≠ 0 ∧ ∀ s' ∈ step Tid.consumer s, s'.resource = 0) ∧
      s.resource ≤ 5 := by
  obtain ⟨a, hg, rfl⟩ := reachable_inv h
  have hr : a.r = resourceOf a.lp a.pi a.lc a.ci := hg.res
  refine ⟨?_, ?_, ?_⟩
  · intro hk
    have hl := hg.prod_assign hk
    have hi := hg.ip
    rw [hl] at hi
    simp only [Loc.iOk, decide_eq_true_eq] at hi
    refine ⟨hr.trans (hg.sync.pAssign hl), ?_⟩
    intro s' hs'
    rw [step_producer_eq] at hs'
    simp only [absProducer, hl, List.map_cons, List.map_nil, List.mem_singleton] at hs'
    subst hs'
    show a.pi + 1 = a.pi + 1 ∧ 1 ≤ a.pi + 1 ∧ a.pi + 1 ≤ 5
    omega
  · intro hk
    have hl := hg.cons_assign hk
    refine ⟨fun h0 => hg.sync.cRead (Or.inr hl) (hr ▸ h0), ?_⟩
    intro s' hs'
    rw [step_consumer_eq] at hs'
    simp only [absConsumer, hl, List.map_cons, List.map_nil, List.mem_singleton] at hs'
    subst hs'
    rfl
  · show a.r ≤ 5
    have hw := written_le hg.ip
    rw [hr]
    unfold resourceOf
    split <;> omega

/-- C7. No deadlock.  In every reachable state in which the producer or the
consumer has not returned, some thread can take a step (a suspended thread
counts only once it has been woken and the mutex is free; a spurious wakeup is
not counted as a step); once both have been created, one of the two can; and a
reachable state in which no thread can take a step is the state in which the
producer, the consumer and `main` have returned and the exit status is `0`. -/
theorem deadlock_free (sp : Bool) (s : State) (h : Reachable sp s) :
    ((¬ s.prod.finished ∨ ¬ s.cons.finished) → ∃ t, enabled t s) ∧
      (s.prod.status ≠ Status.notStarted → s.cons.status ≠ Status.notStarted →
        (¬ s.prod.finished ∨ ¬ s.cons.finished) →
          enabled Tid.producer s ∨ enabled Tid.consumer s) ∧
      ((∀ t, ¬ enabled t s) →
        s.prod.finished ∧ s.cons.finished ∧ s.mainT.finished ∧ s.exitCode = some 0) := by
  obtain ⟨a, hg, rfl⟩ := reachable_inv h
  obtain ⟨h1, h2, h3⟩ := hg.checked.2.1
  have hfin : (¬ (mkState a).prod.finished ∨ ¬ (mkState a).cons.finished) →
      (a.lp ≠ Loc.finished ∨ a.lc ≠ Loc.finished) := by
    intro hn
    rcases hn with hn | hn
    · exact Or.inl fun hl => hn (statusOf_finished.mpr hl)
    · exact Or.inr fun hl => hn (statusOf_finished.mpr hl)
  refine ⟨?_, ?_, ?_⟩
  · intro hn
    obtain ⟨t, _, ht⟩ := h1 (hfin hn)
    exact ⟨t, (enabled_iff t a).mpr ht⟩
  · intro hp hc hn
    have hp' : a.lp ≠ Loc.notStarted := fun hl => hp (statusOf_notStarted.mpr hl)
    have hc' : a.lc ≠ Loc.notStarted := fun hl => hc (statusOf_notStarted.mpr hl)
    rcases h2 hp' hc' (hfin hn) with ht | ht
    · exact Or.inl ((enabled_iff Tid.producer a).mpr ht)
    · exact Or.inr ((enabled_iff Tid.consumer a).mpr ht)
  · intro hall
    have hall' : ∀ t ∈ allTids, (absStep t a).isEmpty = true := by
      intro t _
      have := hall t
      rw [enabled_iff] at this
      simpa using this
    obtain ⟨e1, e2, e3, e4⟩ := h3 hall'
    exact ⟨statusOf_finished.mpr e1, statusOf_finished.mpr e2, statusOf_finished.mpr e3, e4⟩

/-- C8. For every mutex `M`, condition variable `C` and body `B`,
`LOCK_SIGNAL(M, C, B)` is the sequence lock `M`, `B`, unlock `M`, signal `C`, and
`LOCK_BROADCAST(M, C, B)` is the same sequence with broadcast `C` in place of
signal `C`; `LOCK_SIGNAL` adds exactly one signal and no broadcast to those of
`B`, so each iteration of `producer` and of `consumer` issues exactly one
signal and no broadcast; a thread that executes `pthread_cond_signal` leaves at
most one thread fewer suspended on the condition variable, while
`pthread_cond_broadcast` leaves none.  A thread at the start of
`LOCK_SIGNAL(&mutex, &cond, B)` with the mutex free locks it and goes on with
`B`; after `B` its unlock step frees the mutex, and only its next step is the
signal; and in every reachable state a thread about to signal does not own the
mutex. -/
theorem lock_signal_sequence {μ κ : Type} (M : μ) (C : κ) (B : List (Stmt μ κ)) :
    LOCK_SIGNAL M C B = Stmt.mutexLock M :: (B ++ [Stmt.mutexUnlock M, Stmt.condSignal C]) ∧
      LOCK_BROADCAST M C B =
        Stmt.mutexLock M :: (B ++ [Stmt.mutexUnlock M, Stmt.condBroadcast C]) ∧
      ((LOCK_SIGNAL M C B).map Stmt.kind).count Kind.condSignal =
        (B.map Stmt.kind).count Kind.condSignal + 1 ∧
      ((LOCK_SIGNAL M C B).map Stmt.kind).count Kind.condBroadcast =
        (B.map Stmt.kind).count Kind.condBroadcast ∧
      ((LOCK_SIGNAL MutexId.mutex CondId.cond producerCode).map Stmt.kind).count Kind.condSignal = 1 ∧
      ((LOCK_SIGNAL MutexId.mutex CondId.cond consumerCode).map Stmt.kind).count Kind.condSignal = 1 ∧
      ((LOCK_SIGNAL MutexId.mutex CondId.cond producerCode).map Stmt.kind).count
        Kind.condBroadcast = 0 ∧
      ((LOCK_SIGNAL MutexId.mutex CondId.cond consumerCode).map Stmt.kind).count
        Kind.condBroadcast = 0 ∧
      (∀ (t : Tid) (s : State), (s.thread t).nextKind = some Kind.condSignal →
        ∀ s' ∈ step t s, s.waiters.length ≤ s'.waiters.length + 1) ∧
      (∀ (t : Tid) (s : State), (s.thread t).nextKind = some Kind.condBroadcast →
        ∀ s' ∈ step t s, s'.waiters = []) ∧
      (∀ (t : Tid) (s : State) (i : Nat) (M' : MutexId) (C' : CondId) (B' k : List CStmt),
        s.thread t = ⟨Status.running, i, LOCK_SIGNAL M' C' B' ++ k⟩ → s.mutex = none →
          step t s = [{ s.setThread t
            ⟨Status.running, i, B' ++ Stmt.mutexUnlock M' :: Stmt.condSignal C' :: k⟩ with
            mutex := some t }]) ∧
      (∀ (t : Tid) (s : State) (i : Nat) (M' : MutexId) (C' : CondId) (k : List CStmt),
        s.thread t = ⟨Status.running, i, Stmt.mutexUnlock M' :: Stmt.condSignal C' :: k⟩ →
          step t s = [{ s.setThread t ⟨Status.running, i, Stmt.condSignal C' :: k⟩ with
            mutex := none }]) ∧
      (∀ (t : Tid) (s : State) (i : Nat) (C' : CondId) (k : List CStmt),
        s.thread t = ⟨Status.running, i, Stmt.condSignal C' :: k⟩ →
          step t s = signalOutcomes (s.setThread t ⟨Status.running, i, k⟩)) ∧
      (∀ (sp : Bool) (s : State), Reachable sp s →
        ∀ t, (s.thread t).nextKind = some Kind.condSignal → s.mutex ≠ some t) := by
  refine ⟨by simp [LOCK_SIGNAL, LOCK], by simp [LOCK_BROADCAST, LOCK], ?_, ?_, by decide,
    by decide, by decide, by decide, ?_, ?_, ?_, ?_, ?_, ?_⟩
  · simp [LOCK_SIGNAL, LOCK, Stmt.kind, List.count_cons, List.count_append]
  · simp [LOCK_SIGNAL, LOCK, Stmt.kind, List.count_cons, List.count_append]
  · intro t s hk s' hs'
    obtain ⟨hs, st, rest, hc, hkind⟩ := nextKind_running hk
    obtain ⟨c, rfl⟩ := kind_condSignal hkind
    have hstep : step t s = signalOutcomes (s.setThread t { s.thread t with cont := rest }) := by
      simp [step, hs, hc]
    rw [hstep] at hs'
    have := signal_wakes_one _ s' hs'
    rw [waiters_setCont] at this
    rcases this with ⟨h0, _⟩ | h1
    · rw [h0]; simp
    · omega
  · intro t s hk s' hs'
    obtain ⟨hs, st, rest, hc, hkind⟩ := nextKind_running hk
    obtain ⟨c, rfl⟩ := kind_condBroadcast hkind
    have hstep : step t s = [broadcastOutcome (s.setThread t { s.thread t with cont := rest })] := by
      simp [step, hs, hc]
    rw [hstep, List.mem_singleton] at hs'
    rw [hs']
    exact broadcast_wakes_all _
  · intro t s i M' C' B' k h hm
    simp [step, h, hm, LOCK_SIGNAL, LOCK]
  · intro t s i M' C' k h
    simp [step, h]
  · intro t s i C' k h
    simp [step, h]
  · intro sp s h t hk hm
    obtain ⟨a, hg, rfl⟩ := reachable_inv h
    have := (hg.owner_iff t).mp hm
    rw [not_inCritical_of_signal hk] at this
    cases this

/-- C9. `WAIT(M, C, P)` is a predicate loop.  For a thread at the test of the loop:
when `P` is false the step leaves the loop without any call of
`pthread_cond_wait`, and when `P` is true the step leads to the call.  The call
suspends the thread and releases the mutex; a suspended thread takes no step
until it is woken, by a signal or spuriously; and when the woken thread
returns from `pthread_cond_wait` it is at the test again.  Hence a thread inside
the loop stays inside it through any number of its own steps and wakeups,
unless it leaves it by a test in which `P` is false.  In the reachable states of
`example.c`: `main` is never suspended on the condition variable, a thread
becomes suspended on it only by its own call of `pthread_cond_wait`, the
producer makes that call only while `resource != 0`, and the consumer only
while `resource == 0`. -/
theorem wait_predicate_loop (M : MutexId) (C : CondId) (P : Cond) (t : Tid) (s : State)
    (i : Nat) (k : List CStmt) :
    (s.thread t = ⟨Status.running, i, WAIT M C P ++ k⟩ → P.eval i s.resource = false →
        step t s = [s.setThread t ⟨Status.running, i, k⟩]) ∧
      (s.thread t = ⟨Status.running, i, WAIT M C P ++ k⟩ → P.eval i s.resource = true →
        step t s = [s.setThread t ⟨Status.running, i, Stmt.condWait C M :: (WAIT M C P ++ k)⟩]) ∧
      (s.thread t = ⟨Status.running, i, Stmt.condWait C M :: (WAIT M C P ++ k)⟩ →
        step t s = [{ s.setThread t ⟨Status.blocked, i, Stmt.condWait C M :: (WAIT M C P ++ k)⟩
                      with mutex := none }]) ∧
      (s.thread t = ⟨Status.blocked, i, Stmt.condWait C M :: (WAIT M C P ++ k)⟩ →
        step t s = [] ∧
          (s.wake t).thread t = ⟨Status.woken, i, Stmt.condWait C M :: (WAIT M C P ++ k)⟩) ∧
      (s.thread t = ⟨Status.woken, i, Stmt.condWait C M :: (WAIT M C P ++ k)⟩ →
        ∀ s' ∈ step t s, s'.thread t = ⟨Status.running, i, WAIT M C P ++ k⟩) ∧
      (inWait M C P i k (s.thread t) → ∀ s' ∈ step t s ++ spuriousWake t s,
        inWait M C P i k (s'.thread t) ∨
          (s'.thread t = ⟨Status.running, i, k⟩ ∧ P.eval i s.resource = false)) ∧
      (∀ (sp : Bool) (s₀ : State), Reachable sp s₀ →
        ¬ s₀.mainT.blocked ∧
          (s₀.prod.nextKind = some Kind.condWait → s₀.resource ≠ 0) ∧
          (s₀.cons.nextKind = some Kind.condWait → s₀.resource = 0) ∧
          (∀ u, ∀ s' ∈ step u s₀, ∀ v, (s'.thread v).blocked →
            (s₀.thread v).blocked ∨ (v = u ∧ (s₀.thread u).nextKind = some Kind.condWait))) := by
  refine ⟨?_, ?_, ?_, ?_, ?_, ?_, ?_⟩
  · intro h hp
    rw [step_waitTest h]
    simp [hp]
  · intro h hp
    rw [step_waitTest h]
    simp [hp]
  · intro h
    exact step_waitCall h
  · intro h
    refine ⟨step_waitBlocked h, ?_⟩
    unfold State.wake
    rw [thread_setThread, h]
  · intro h s' hs'
    rw [step_waitReturn h] at hs'
    split at hs'
    · rw [List.mem_singleton] at hs'
      rw [hs', thread_setThread_mutex]
    · cases hs'
  · intro hin s' hs'
    rw [List.mem_append] at hs'
    rcases hin with h | h | h | h
    · rcases hs' with hs' | hs'
      · rw [step_waitTest h, List.mem_singleton] at hs'
        rw [hs', thread_setThread]
        by_cases hp : P.eval i s.resource = true
        · simp [hp, inWait]
        · right
          simp [hp]
      · simp [spuriousWake, h] at hs'
    · rcases hs' with hs' | hs'
      · rw [step_waitCall h, List.mem_singleton] at hs'
        rw [hs', thread_setThread_mutex]
        simp [inWait]
      · simp [spuriousWake, h] at hs'
    · rcases hs' with hs' | hs'
      · rw [step_waitBlocked h] at hs'
        cases hs'
      · simp only [spuriousWake, h, if_true, List.mem_singleton] at hs'
        rw [hs']
        unfold State.wake
        rw [thread_setThread, h]
        simp [inWait]
    · rcases hs' with hs' | hs'
      · rw [step_waitReturn h] at hs'
        split at hs'
        · rw [List.mem_singleton] at hs'
          rw [hs', thread_setThread_mutex]
          simp [inWait]
        · cases hs'
      · simp [spuriousWake, h] at hs'
  · intro sp s₀ h
    obtain ⟨a, hg, rfl⟩ := reachable_inv h
    have hr : (mkState a).resource = resourceOf a.lp a.pi a.lc a.ci := hg.res
    refine ⟨?_, ?_, ?_, ?_⟩
    · intro hb
      have hl : a.lm = Loc.blocked := statusOf_blocked.mp hb
      have hm := hg.wm
      rw [hl] at hm
      simp [mainLocs] at hm
    · intro hk
      have hk' := hg.nextKind_eq Tid.producer ▸ hk
      rw [hr]
      exact hg.sync.pWait (Or.inl (kind_condWait hk'))
    · intro hk
      have hk' := hg.nextKind_eq Tid.consumer ▸ hk
      rw [hr]
      exact hg.sync.cWait (Or.inl (kind_condWait hk'))
    · intro u s' hs' v hb
      rw [step_eq, List.mem_map] at hs'
      obtain ⟨a', ha', rfl⟩ := hs'
      have hsus := hg.checked.2.2 u (mem_allTids u) a' ha' v (mem_allTids v)
        ((blocked_iff v a').mp hb)
      rcases hsus with h1 | ⟨h1, h2⟩
      · exact Or.inl ((blocked_iff v a).mpr h1)
      · refine Or.inr ⟨h1, ?_⟩
        rw [hg.nextKind_eq, h2]
        rfl

/-- C10. In every reachable state, with or without spurious wakeups, the
producer and the consumer are not both suspended in `pthread_cond_wait`; when
the consumer is suspended while `resource != 0`, the producer is between its
write `resource = i + 1` and its `pthread_cond_signal` (its next statement is
its `printf`, its unlock or its signal); when the producer is suspended while
`resource == 0`, the consumer is between its write `resource = 0` and its
`pthread_cond_signal` (its next statement is its unlock or its signal); and
the signal of one of the two, executed while the other is suspended, wakes
it. -/
theorem no_lost_wakeup (sp : Bool) (s : State) (h : Reachable sp s) :
    ¬ (s.prod.blocked ∧ s.cons.blocked) ∧
      (s.cons.blocked → s.resource ≠ 0 →
        s.prod.nextKind = some Kind.printf ∨ s.prod.nextKind = some Kind.mutexUnlock ∨
          s.prod.nextKind = some Kind.condSignal) ∧
      (s.prod.blocked → s.resource = 0 →
        s.cons.nextKind = some Kind.mutexUnlock ∨ s.cons.nextKind = some Kind.condSignal) ∧
      (s.cons.blocked → s.prod.nextKind = some Kind.condSignal →
        ∀ s' ∈ step Tid.producer s, s'.cons.status = Status.woken) ∧
      (s.prod.blocked → s.cons.nextKind = some Kind.condSignal →
        ∀ s' ∈ step Tid.consumer s, s'.prod.status = Status.woken) := by
  obtain ⟨a, hg, rfl⟩ := reachable_inv h
  have hr : (mkState a).resource = resourceOf a.lp a.pi a.lc a.ci := hg.res
  have hcb : (mkState a).cons.blocked → (mkState a).resource ≠ 0 →
      a.lp = Loc.print ∨ a.lp = Loc.unlock ∨ a.lp = Loc.signal := by
    intro hb h0
    exact hg.sync.cBlocked (statusOf_blocked.mp hb) (hr ▸ h0)
  have hpb : (mkState a).prod.blocked → (mkState a).resource = 0 →
      a.lc = Loc.unlock ∨ a.lc = Loc.signal := by
    intro hb h0
    exact hg.sync.pBlocked (statusOf_blocked.mp hb) (hr ▸ h0)
  refine ⟨?_, ?_, ?_, ?_, ?_⟩
  · rintro ⟨hp, hc⟩
    have hp' : a.lp = Loc.blocked := statusOf_blocked.mp hp
    have hc' : a.lc = Loc.blocked := statusOf_blocked.mp hc
    by_cases h0 : (mkState a).resource = 0
    · rcases hpb hp h0 with h1 | h1 <;> rw [hc'] at h1 <;> cases h1
    · rcases hcb hc h0 with h1 | h1 | h1 <;> rw [hp'] at h1 <;> cases h1
  · intro hb h0
    show Thread.nextKind ⟨statusOf a.lp, a.pi, prodCont a.lp⟩ = _ ∨
      Thread.nextKind ⟨statusOf a.lp, a.pi, prodCont a.lp⟩ = _ ∨
      Thread.nextKind ⟨statusOf a.lp, a.pi, prodCont a.lp⟩ = _
    rw [nextKind_prod _ hg.wp]
    rcases hcb hb h0 with h1 | h1 | h1 <;> rw [h1] <;> simp [Loc.kind]
  · intro hb h0
    show Thread.nextKind ⟨statusOf a.lc, a.ci, consCont a.lc⟩ = _ ∨
      Thread.nextKind ⟨statusOf a.lc, a.ci, consCont a.lc⟩ = _
    rw [nextKind_cons _ hg.wc]
    rcases hpb hb h0 with h1 | h1 <;> rw [h1] <;> simp [Loc.kind]
  · intro hb hk s' hs'
    have hl : a.lc = Loc.blocked := statusOf_blocked.mp hb
    have hp : a.lp = Loc.signal := loc_kind_condSignal (hg.nextKind_eq Tid.producer ▸ hk)
    have hm := hg.wm
    rw [step_producer_eq, List.mem_map] at hs'
    obtain ⟨a', ha', rfl⟩ := hs'
    rcases a with ⟨lp, pi, lc, ci, lm, r, m, ex, tr⟩
    simp only at hl hp hm
    subst hl hp
    simp only [mainLocs, List.mem_cons, List.mem_singleton, List.not_mem_nil, or_false] at hm
    rcases hm with rfl | rfl | rfl | rfl | rfl | rfl <;>
      simp [absProducer, absSignal, AState.waiters, allTids, AState.loc, AState.wake] at ha' <;>
      subst ha' <;> rfl
  · intro hb hk s' hs'
    have hl : a.lp = Loc.blocked := statusOf_blocked.mp hb
    have hc : a.lc = Loc.signal := loc_kind_condSignal (hg.nextKind_eq Tid.consumer ▸ hk)
    have hm := hg.wm
    rw [step_consumer_eq, List.mem_map] at hs'
    obtain ⟨a', ha', rfl⟩ := hs'
    rcases a with ⟨lp, pi, lc, ci, lm, r, m, ex, tr⟩
    simp only at hl hc hm
    subst hl hc
    simp only [mainLocs, List.mem_cons, List.mem_singleton, List.not_mem_nil, or_false] at hm
    rcases hm with rfl | rfl | rfl | rfl | rfl | rfl <;>
      simp [absConsumer, absSignal, AState.waiters, allTids, AState.loc, AState.wake] at ha' <;>
      subst ha' <;> rfl

/-! ## The theorems at particular reachable states -/

theorem reachable_afterSchedule (sp : Bool) (runs : List (Nat × Tid))
    (h : (runSchedule (schedule runs) init).isSome = true) :
    Reachable sp (afterSchedule runs) := by
  unfold afterSchedule
  cases hr : runSchedule (schedule runs) init with
  | none => rw [hr] at h; cases h
  | some s => exact reachable_run (schedule runs) Reachable.start hr

set_option maxRecDepth 1000000 in
theorem consumed_sequence_witness :
    (afterSchedule completeRuns).prod.finished ∧ (afterSchedule completeRuns).cons.finished ∧
      consumed (afterSchedule completeRuns).trace = [1, 2, 3, 4, 5] :=
  ⟨rfl, rfl,
    (consumed_sequence false (afterSchedule completeRuns)
      (reachable_afterSchedule false completeRuns rfl)).1 rfl rfl⟩

set_option maxRecDepth 1000000 in
theorem handoff_alternates_witness :
    (∃ k < 6, handoffs (afterSchedule firstHandoffRuns).trace = alternation k ∨
        (k < 5 ∧ handoffs (afterSchedule firstHandoffRuns).trace =
          alternation k ++ [Op.put (k + 1)])) ∧
      handoffs (afterSchedule firstHandoffRuns).trace = [Op.put 1, Op.take 1] :=
  ⟨(handoff_alternates false (afterSchedule firstHandoffRuns)
      (reachable_afterSchedule false firstHandoffRuns rfl)).1, rfl⟩

set_option maxRecDepth 1000000 in
theorem first_take_after_first_put_witness :
    produced (afterSchedule consumerAtTestRuns).trace = [] ∧
      (afterSchedule consumerAtTestRuns).cons.inCritical = true ∧
      (afterSchedule consumerAtTestRuns).cons.i = 0 ∧
      ∀ s' ∈ step Tid.consumer (afterSchedule consumerAtTestRuns),
        s'.cons.nextKind = some Kind.condWait ∨ s'.cons.blocked :=
  ⟨rfl, rfl,
    ((first_take_after_first_put false (afterSchedule consumerAtTestRuns)
      (reachable_afterSchedule false consumerAtTestRuns rfl)).1 rfl).2.2.2.1,
    ((first_take_after_first_put false (afterSchedule consumerAtTestRuns)
      (reachable_afterSchedule false consumerAtTestRuns rfl)).1 rfl).2.2.2.2.2.2 rfl⟩

set_option maxRecDepth 1000000 in
theorem final_slot_empty_witness :
    (afterSchedule completeRuns).prod.finished ∧ (afterSchedule completeRuns).cons.finished ∧
      (afterSchedule completeRuns).resource = 0 ∧ (afterSchedule completeRuns).mutex = none :=
  ⟨rfl, rfl,
    final_slot_empty false (afterSchedule completeRuns)
      (reachable_afterSchedule false completeRuns rfl) rfl rfl⟩

set_option maxRecDepth 1000000 in
theorem mutex_discipline_witness :
    (afterSchedule firstPutRuns).prod.nextKind = some Kind.printf ∧
      (afterSchedule firstPutRuns).mutex = some Tid.producer :=
  ⟨rfl,
    ((mutex_discipline false (afterSchedule firstPutRuns)
      (reachable_afterSchedule false firstPutRuns rfl)).2.2.1 Tid.producer).mpr rfl⟩

set_option maxRecDepth 1000000 in
theorem slot_transitions_witness :
    (afterSchedule producerAtAssignRuns).prod.nextKind = some Kind.assign ∧
      (afterSchedule producerAtAssignRuns).resource = 0 ∧
      ∀ s' ∈ step Tid.producer (afterSchedule producerAtAssignRuns),
        s'.resource = (afterSchedule producerAtAssignRuns).prod.i + 1 ∧
          1 ≤ s'.resource ∧ s'.resource ≤ 5 :=
  ⟨rfl,
    (slot_transitions false (afterSchedule producerAtAssignRuns)
      (reachable_afterSchedule false producerAtAssignRuns rfl)).1 rfl⟩

set_option maxRecDepth 1000000 in
theorem deadlock_free_witness :
    ((afterSchedule consumerSuspendedRuns).cons.blocked ∧
      ¬ (afterSchedule consumerSuspendedRuns).prod.finished ∧
      (enabled Tid.producer (afterSchedule consumerSuspendedRuns) ∨
        enabled Tid.consumer (afterSchedule consumerSuspendedRuns))) ∧
      ((∀ t, ¬ enabled t (afterSchedule completeRuns)) ∧
        (afterSchedule completeRuns).mainT.finished ∧
        (afterSchedule completeRuns).exitCode = some 0) :=
  ⟨⟨rfl, by decide,
      (deadlock_free false (afterSchedule consumerSuspendedRuns)
        (reachable_afterSchedule false consumerSuspendedRuns rfl)).2.1
        (by decide) (by decide) (Or.inl (by decide))⟩,
    fun t => by cases t <;> exact fun h => h rfl,
    ((deadlock_free false (afterSchedule completeRuns)
      (reachable_afterSchedule false completeRuns rfl)).2.2
      (fun t => by cases t <;> exact fun h => h rfl)).2.2⟩

set_option maxRecDepth 1000000 in
theorem lock_signal_sequence_witness :
    LOCK_SIGNAL MutexId.mutex CondId.cond consumerCode =
        [Stmt.mutexLock MutexId.mutex,
         Stmt.while_ (Cond.resourceEq 0) [Stmt.condWait CondId.cond MutexId.mutex],
         Stmt.printf Fmt.consumed, Stmt.assign (Expr.lit 0),
         Stmt.mutexUnlock MutexId.mutex, Stmt.condSignal CondId.cond] ∧
      (afterSchedule producerAtSignalRuns).prod.nextKind = some Kind.condSignal ∧
      (afterSchedule producerAtSignalRuns).mutex ≠ some Tid.producer :=
  ⟨(lock_signal_sequence MutexId.mutex CondId.cond consumerCode).1, rfl,
    (lock_signal_sequence MutexId.mutex CondId.cond consumerCode).2.2.2.2.2.2.2.2.2.2.2.2.2 false
      (afterSchedule producerAtSignalRuns)
      (reachable_afterSchedule false producerAtSignalRuns rfl) Tid.producer rfl⟩

set_option maxRecDepth 1000000 in
theorem wait_predicate_loop_witness :
    (Cond.resourceEq 0).eval 0 (afterSchedule consumerAtTestRuns).resource = true ∧
      step Tid.consumer (afterSchedule consumerAtTestRuns) =
        [(afterSchedule consumerAtTestRuns).setThread Tid.consumer
          ⟨Status.running, 0,
            Stmt.condWait CondId.cond MutexId.mutex ::
              (WAIT MutexId.mutex CondId.cond (Cond.resourceEq 0) ++
                (cBody.drop 2 ++ cTail))⟩] :=
  ⟨rfl,
    (wait_predicate_loop MutexId.mutex CondId.cond (Cond.resourceEq 0) Tid.consumer
      (afterSchedule consumerAtTestRuns) 0 (cBody.drop 2 ++ cTail)).2.1 rfl rfl⟩

set_option maxRecDepth 1000000 in
theorem no_lost_wakeup_witness :
    (afterSchedule pendingSignalRuns).cons.blocked ∧
      (afterSchedule pendingSignalRuns).resource = 1 ∧
      ((afterSchedule pendingSignalRuns).prod.nextKind = some Kind.printf ∨
        (afterSchedule pendingSignalRuns).prod.nextKind = some Kind.mutexUnlock ∨
        (afterSchedule pendingSignalRuns).prod.nextKind = some Kind.condSignal) :=
  ⟨rfl, rfl,
    (no_lost_wakeup false (afterSchedule pendingSignalRuns)
      (reachable_afterSchedule false pendingSignalRuns rfl)).2.1 rfl (by decide)⟩

end LockH
